import Mathlib

/-!
# Crypto-Dashboard: view derivation, favourites, snapshot and history state

A shallow embedding of the logic of `src/App.jsx` (component `CryptoDashboard`).

Conventions of the embedding.

* JavaScript numbers that arrive in a JSON listing are finite; they are embedded as
  rationals.  Comparison of finite doubles is exact, and the sign of the floating-point
  difference `a - b` of two finite doubles is the sign of the exact difference, which is all
  the sort comparator is used for.
* JavaScript strings are embedded as `String`; `includes` is "is a contiguous sub-sequence
  of". `String.prototype.toLowerCase` is the platform's Unicode case mapping: the view
  derivation takes it as a parameter `toLowerCase`, and every general statement holds for
  every such function.
* A property read `obj[key]` on a plain object finds the object's own properties first and
  then the members inherited from `Object.prototype`.
* `Array.prototype.sort` is a built-in: it is embedded as a stable sort driven by the sign of
  the comparator (ECMAScript 2019 requires stability; for a consistent comparator the result
  of a stable sort is unique, whatever algorithm the engine runs).
-/

namespace CryptoDashboard

/-! ## Data model -/

/-- One entry of the listing, with the fields the view derivation reads. A `null` or absent
`price_change_percentage_24h` is `none`. -/
structure Coin where
  id : String
  name : String
  symbol : String
  current_price : ℚ
  market_cap : ℚ
  price_change_percentage_24h : Option ℚ
deriving DecidableEq

/-- The values offered by the sort selector for `sortBy` (the part before the dash of
`market_cap-desc`, `current_price-asc`, ...). -/
inductive SortField where
  | market_cap
  | current_price
  | price_change_percentage_24h
deriving DecidableEq, Repr

/-! ## Built-ins used by the view derivation -/

/-- A lower-casing function that folds the ASCII letters `A`-`Z` and keeps every other
character. It agrees with `String.prototype.toLowerCase` on ASCII text and is used only to
instantiate scenarios whose strings are ASCII. -/
def asciiToLowerCase (s : String) : String := ⟨s.data.map Char.toLower⟩

/-- The built-in `String.prototype.includes`: `includes s t` is `s.includes(t)`. -/
def includes (s t : String) : Bool := decide (t.data <:+: s.data)

/-- The built-in `Array.prototype.sort(compareFn)`: a stable sort that puts `a` before `b`
when `compareFn a b` is negative and keeps the original order when it is zero. -/
def arraySort {α : Type} (compareFn : α → α → ℚ) (l : List α) : List α :=
  l.insertionSort (fun a b => compareFn a b ≤ 0)

/-! ## `getMarketCapCategory` and `filteredCoins` -/

/-- The function `getMarketCapCategory` (App.jsx, lines 88-92). -/
def getMarketCapCategory (marketCap : ℚ) : String :=
  if marketCap > 10000000000 then "large"
  else if marketCap > 1000000000 then "mid"
  else "small"

/-- The predicate passed to `coins.filter` in `filteredCoins` (lines 95-103). The parameter
`toLowerCase` is the platform's `String.prototype.toLowerCase`. -/
def matchesFilter (toLowerCase : String → String) (searchTerm marketCapFilter : String)
    (coin : Coin) : Bool :=
  let matchesSearch :=
    includes (toLowerCase coin.name) (toLowerCase searchTerm) ||
      includes (toLowerCase coin.symbol) (toLowerCase searchTerm)
  let matchesMarketCap :=
    decide (marketCapFilter = "all") ||
      decide (getMarketCapCategory coin.market_cap = marketCapFilter)
  matchesSearch && matchesMarketCap

/-- The value `aValue` / `bValue` the comparator reads from a coin (lines 107-113):
`a[sortBy]`, replaced by `a.price_change_percentage_24h || 0` for the 24h field. -/
def sortValue (sortBy : SortField) (a : Coin) : ℚ :=
  match sortBy with
  | .market_cap => a.market_cap
  | .current_price => a.current_price
  | .price_change_percentage_24h => a.price_change_percentage_24h.getD 0

/-- The comparator passed to `filtered.sort` (lines 106-120). -/
def compareCoins (sortBy : SortField) (sortOrder : String) (a b : Coin) : ℚ :=
  let aValue := sortValue sortBy a
  let bValue := sortValue sortBy b
  if sortOrder = "asc" then aValue - bValue else bValue - aValue

/-- The memoised `filteredCoins` (lines 94-123): filter the snapshot, then sort the result.
The parameter `toLowerCase` is the platform's `String.prototype.toLowerCase`. -/
def filteredCoins (toLowerCase : String → String) (coins : List Coin)
    (searchTerm marketCapFilter : String) (sortBy : SortField) (sortOrder : String) :
    List Coin :=
  let filtered := coins.filter (matchesFilter toLowerCase searchTerm marketCapFilter)
  arraySort (compareCoins sortBy sortOrder) filtered

/-- The `btc` entity of the specification's scenario. -/
def btc : Coin :=
  { id := "btc", name := "Bitcoin", symbol := "btc", current_price := 50000,
    market_cap := 900000000000, price_change_percentage_24h := some (5 / 2) }

/-- The `xmr` entity of the specification's scenario. -/
def xmr : Coin :=
  { id := "xmr", name := "Monero", symbol := "xmr", current_price := 150,
    market_cap := 3000000000, price_change_percentage_24h := some (-6 / 5) }

/-- A second entity with the market cap of `xmr`, for tie scenarios. -/
def zec : Coin :=
  { id := "zec", name := "Zcash", symbol := "zec", current_price := 30,
    market_cap := 3000000000, price_change_percentage_24h := none }

/-! ## JSON values and the durable favourites record -/

/-- The values `JSON.parse` and `response.json()` can produce. -/
inductive Json where
  | null
  | bool (b : Bool)
  | num (n : ℚ)
  | str (s : String)
  | arr (items : List Json)
  | obj (fields : List (String × Json))

/-- JavaScript truthiness (the left operand test of `||`) of a parsed value: `null`, `false`,
`0` and `""` are falsy, every array and object is truthy. -/
def Json.truthy : Json → Bool
  | .null => false
  | .bool b => b
  | .num n => decide (n ≠ 0)
  | .str s => decide (s ≠ "")
  | .arr _ => true
  | .obj _ => true

/-- Whether a parsed value is an array. -/
def Json.isArray : Json → Bool
  | .arr _ => true
  | _ => false

/-- The text stored under a `localStorage` key, classified by what `JSON.parse` makes of it:
either it is valid JSON text denoting `v`, or it is not valid JSON at all. That
`JSON.stringify` of a value produces text denoting that value is the round-trip law of the
platform's JSON codec, built into this type. -/
inductive RecordText where
  | json (v : Json)
  | malformed (raw : String)

/-- The JavaScript outcome of an expression that may throw. -/
inductive Outcome (α : Type) where
  | value (v : α)
  | throws (error : String)

/-- The text `JSON.stringify(favs)` for an array of id strings. -/
def jsonStringify (favs : List String) : RecordText :=
  .json (.arr (favs.map Json.str))

/-- The call `JSON.parse(localStorage.getItem("favourites"))`: `getItem` returns `null` when the key
is absent, and `JSON.parse(null)` parses the text `null`; text that is not JSON throws a
`SyntaxError`. -/
def jsonParseItem (item : Option RecordText) : Outcome Json :=
  match item with
  | none => .value .null
  | some (.json v) => .value v
  | some (.malformed _) => .throws "SyntaxError"

/-- The initial value of the `favourites` state (line 7):
`JSON.parse(localStorage.getItem("favourites")) || []`, with no `try` around it. -/
def loadFavourites (item : Option RecordText) : Outcome Json :=
  match jsonParseItem item with
  | .value v => .value (if v.truthy then v else .arr [])
  | .throws e => .throws e

/-- The favourites in memory together with the durable `favourites` record. -/
structure FavouritesState where
  favourites : List String
  record : Option RecordText

/-- The function `saveFavouritesToLocalStorage` (lines 74-76). -/
def saveFavouritesToLocalStorage (favs : List String) (s : FavouritesState) :
    FavouritesState :=
  { s with record := some (jsonStringify favs) }

/-- The function `togglefavourite` (lines 78-86), with the updater applied to the current
favourites. -/
def togglefavourite (coinId : String) (s : FavouritesState) : FavouritesState :=
  let prev := s.favourites
  let updated :=
    if prev.contains coinId then prev.filter (fun id => id != coinId) else prev ++ [coinId]
  { saveFavouritesToLocalStorage updated s with favourites := updated }

/-! ## Snapshot fetch and history cache -/

/-- A network request issued by the component. -/
inductive Request where
  | markets (vs_currency : String)
  | marketChart (coinId vs_currency : String)
deriving DecidableEq

/-- How `await fetch(url)` followed by `await response.json()` ends. `fetch` rejects only on
a transport failure (an HTTP error status still resolves), `response.json()` rejects when the
body is not JSON text. -/
inductive FetchResult where
  | transportFailure
  | bodyNotJson
  | body (data : Json)

/-- One element of a cached series: `{ time, price }`. -/
structure PricePoint where
  time : String
  price : ℚ
deriving DecidableEq

/-- How the history request ends: `samples` are the `[timestamp, price]` pairs of
`data.prices` when the body has the documented shape; `failure` is every run in which the `try`
block throws (transport failure, body not JSON, or no `prices` array to map over). -/
inductive HistoryResult where
  | failure
  | prices (samples : List (Int × ℚ))

/-- The names of the members every plain object inherits from `Object.prototype`. Each of
them is a function, or for `__proto__` the prototype object itself. -/
def objectPrototypeKeys : List String :=
  ["constructor", "__defineGetter__", "__defineSetter__", "hasOwnProperty",
    "__lookupGetter__", "__lookupSetter__", "isPrototypeOf", "propertyIsEnumerable",
    "toString", "valueOf", "__proto__", "toLocaleString"]

/-- What a property read `obj[key]` on a plain object yields: the value of an own property,
a member inherited from `Object.prototype`, or `undefined`. -/
inductive PropertyValue (β : Type) where
  | undefined
  | own (value : β)
  | inherited (key : String)
deriving DecidableEq

/-- The own property `key` of an object given by its own entries, if it has one. -/
def ownProperty {β : Type} (o : List (String × β)) (key : String) : Option β :=
  match o with
  | [] => none
  | (k, v) :: rest => if k = key then some v else ownProperty rest key

/-- Property read `obj[key]` on a plain object such as the `{}` of `useState({})`: an own
property wins, otherwise the prototype chain is searched. -/
def objGet {β : Type} (o : List (String × β)) (key : String) : PropertyValue β :=
  match ownProperty o key with
  | some v => .own v
  | none => if objectPrototypeKeys.contains key then .inherited key else .undefined

/-- JavaScript truthiness of a read of an object whose own values are arrays: an array is
truthy also when it is empty, an inherited member is a function or an object and truthy,
`undefined` is falsy. -/
def PropertyValue.truthy {β : Type} : PropertyValue β → Bool
  | .undefined => false
  | .own _ => true
  | .inherited _ => true

/-- The object `{ ...prev, [key]: value }`: an existing key keeps its place and takes the new
value, a new key is appended. -/
def objSet {β : Type} (prev : List (String × β)) (key : String) (value : β) :
    List (String × β) :=
  match prev with
  | [] => [(key, value)]
  | (k, v) :: rest =>
    if k = key then (k, value) :: rest else (k, v) :: objSet rest key value

/-- The component state that the fetches and the history cache act on, with a log of the
network requests issued so far. -/
structure State where
  coins : Json
  loading : Bool
  selectedCurrency : String
  priceHistory : List (String × List PricePoint)
  selectedCoin : Option Coin
  requests : List Request

/-- The state of the first render: `useState([])`, `useState(true)`, `useState('usd')`,
`useState({})`, `useState(null)`. -/
def initialState : State :=
  { coins := .arr [], loading := true, selectedCurrency := "usd", priceHistory := [],
    selectedCoin := none, requests := [] }

/-- The call of `fetchCoins` up to its first `await` (lines 40-44): the request for the
listing in the current `selectedCurrency` is sent. -/
def fetchCoinsStart (s : State) : State :=
  { s with requests := s.requests ++ [.markets s.selectedCurrency] }

/-- The rest of `fetchCoins` (lines 45-51), once the request has ended with `r`: a body that
parses is passed to `setCoins` as it is; a rejection goes to the `catch` block. -/
def fetchCoinsFinish (r : FetchResult) (s : State) : State :=
  match r with
  | .body data => { s with coins := data, loading := false }
  | .transportFailure => { s with loading := false }
  | .bodyNotJson => { s with loading := false }

/-- A whole run of `fetchCoins` that ends with `r`. -/
def fetchCoins (r : FetchResult) (s : State) : State :=
  fetchCoinsFinish r (fetchCoinsStart s)

/-- The call of `fetchPriceHistory(coinId)` up to its first `await` (lines 54-58). -/
def fetchPriceHistoryStart (coinId : String) (s : State) : State :=
  { s with requests := s.requests ++ [.marketChart coinId s.selectedCurrency] }

/-- The rest of `fetchPriceHistory` (lines 59-72), once the request has ended with `r`.
`toLocaleDateString` stands for `new Date(timestamp).toLocaleDateString()`. -/
def fetchPriceHistoryFinish (toLocaleDateString : Int → String) (coinId : String)
    (r : HistoryResult) (s : State) : State :=
  match r with
  | .prices samples =>
    let formattedData : List PricePoint :=
      samples.map (fun sample => { time := toLocaleDateString sample.1, price := sample.2 })
    { s with priceHistory := objSet s.priceHistory coinId formattedData }
  | .failure => s

/-- The handler `handleCoinClick` (lines 144-149): `setSelectedCoin(coin)`, then
`fetchPriceHistory(coin.id)` when `!priceHistory[coin.id]`, that is when the read is falsy. -/
def handleCoinClick (coin : Coin) (s : State) : State :=
  let s1 := { s with selectedCoin := some coin }
  if (objGet s1.priceHistory coin.id).truthy then s1 else fetchPriceHistoryStart coin.id s1

/-- The currency selector's `setSelectedCurrency` (line 188) followed by the effect that
depends on `selectedCurrency` (lines 34-38): a changed value sends a new listing request. -/
def setSelectedCurrency (currency : String) (s : State) : State :=
  if currency = s.selectedCurrency then s
  else fetchCoinsStart { s with selectedCurrency := currency }

/-! ## The refresh scheduler -/

/-- The refresh effect over discrete time in milliseconds: the clock, the active currency, the
armed interval timer (its next firing time and the currency its `fetchCoins` closure reads)
and the log of the `fetchCoins` calls as (time, currency). -/
structure Scheduler where
  now : Nat
  selectedCurrency : String
  interval : Option (Nat × String)
  fetches : List (Nat × String)

/-- The effect body (lines 35-36): `fetchCoins()` now, then `setInterval(fetchCoins, 30000)`. -/
def runEffect (s : Scheduler) : Scheduler :=
  { s with
    fetches := s.fetches ++ [(s.now, s.selectedCurrency)]
    interval := some (s.now + 30000, s.selectedCurrency) }

/-- The effect cleanup (line 37): `clearInterval(interval)`. -/
def cleanupEffect (s : Scheduler) : Scheduler :=
  { s with interval := none }

/-- Mounting the component at time `t` with the initial currency: the effect runs once. -/
def mount (t : Nat) (currency : String) : Scheduler :=
  runEffect { now := t, selectedCurrency := currency, interval := none, fetches := [] }

/-- Unmounting the component: the cleanup runs. -/
def unmount (s : Scheduler) : Scheduler :=
  cleanupEffect s

/-- A change of `selectedCurrency`: the dependency array `[selectedCurrency]` (line 38) makes
React run the cleanup of the previous effect and then the effect again; setting the value it
already has re-runs nothing. -/
def switchCurrency (currency : String) (s : Scheduler) : Scheduler :=
  if currency = s.selectedCurrency then s
  else runEffect { cleanupEffect s with selectedCurrency := currency }

/-- The calls made by `k` consecutive firings of a timer whose next firing is at `next`. -/
def firings (k next : Nat) (currency : String) : List (Nat × String) :=
  match k with
  | 0 => []
  | k + 1 => (next, currency) :: firings k (next + 30000) currency

/-- Time passes until `t` (inclusive): an armed timer fires at every multiple of 30000 ms
after it was armed that is not later than `t`. -/
def advanceTo (t : Nat) (s : Scheduler) : Scheduler :=
  if t < s.now then s
  else
    match s.interval with
    | none => { s with now := t }
    | some (next, currency) =>
      if t < next then { s with now := t }
      else
        let k := (t - next) / 30000 + 1
        { s with
          now := t
          fetches := s.fetches ++ firings k next currency
          interval := some (next + k * 30000, currency) }

/-- The time of the next periodic tick, if a timer is armed. -/
def nextTick (s : Scheduler) : Option Nat :=
  s.interval.map Prod.fst

/-! ## View criteria and their change handlers -/

/-- The component state together with the four view criteria (`searchTerm`,
`marketCapFilter`, `sortBy`, `sortOrder`, lines 9-13). -/
structure ViewState where
  app : State
  searchTerm : String
  marketCapFilter : String
  sortBy : SortField
  sortOrder : String

/-- The criteria of the first render: `useState('')`, `useState('all')`,
`useState('market_cap')`, `useState('desc')`. -/
def initialViewState : ViewState :=
  { app := initialState, searchTerm := "", marketCapFilter := "all",
    sortBy := SortField.market_cap, sortOrder := "desc" }

/-- The search input's `onChange` (line 179): `setSearchTerm(e.target.value)`. -/
def searchOnChange (value : String) (v : ViewState) : ViewState :=
  { v with searchTerm := value }

/-- A call `fetchCoins(argument)`: `fetchCoins` is declared as `async () => ...` without a
parameter (line 40), so the argument is dropped and the run is an ordinary `fetchCoins` run. -/
def fetchCoinsWithArgument (_argument : String) (r : FetchResult) (s : State) : State :=
  fetchCoins r s

/-- The market-cap selector's `onChange` (lines 203-206), for the chosen option `value` and a
listing request that ends with `r`. The handler awaits `fetchCoins(e.target.value)` and only
then calls `setMarketCapFilter(e.target.value)`, reading `e.target.value` a second time. The
selector is a controlled element (`value={marketCapFilter}`, line 202): when the synchronous
part of the handler returns without a state update, React restores the element to the value
of the state, so the second read yields the `marketCapFilter` of before the event. -/
def marketCapOnChange (value : String) (r : FetchResult) (v : ViewState) : ViewState :=
  let fetched := { v with app := fetchCoinsWithArgument value r v.app }
  let targetValueAfterAwait := v.marketCapFilter
  { fetched with marketCapFilter := targetValueAfterAwait }

/-- The sort selector's `onChange` (lines 220-224): the option value, split at the dash, is
passed to `setSortBy` and `setSortOrder`. -/
def sortOnChange (field : SortField) (order : String) (v : ViewState) : ViewState :=
  { v with sortBy := field, sortOrder := order }

/-! ## Scenario values -/

/-- A snapshot holding one record, as parsed from a listing. -/
def sampleSnapshot : Json :=
  .arr [.obj [("id", .str "bitcoin"), ("market_cap", .num 900000000000)]]

/-- The body of an error response of the provider: JSON text, but an object with a `status`
field rather than an array of entity records. -/
def errorBody : Json :=
  .obj [("status", .obj [("error_code", .num 429)])]

/-- A date formatter for scenarios: every sample of the scenario series is of 1 January 1970. -/
def epochDate (_timestamp : Int) : String := "1/1/1970"

/-- The state reached from the first render by selecting `btc` in `usd`, receiving its
series, switching the currency to `eur` and selecting `btc` again. -/
def reselectAfterSwitch : State :=
  handleCoinClick btc
    (setSelectedCurrency "eur"
      (fetchPriceHistoryFinish epochDate "btc" (.prices [(0, 50000)])
        (handleCoinClick btc initialState)))

/-- The scheduler mounted at `t = 0` in `usd` and switched to `eur` at `t = 10000`. -/
def switchedAt10000 : Scheduler :=
  switchCurrency "eur" (advanceTo 10000 (mount 0 "usd"))

/-- An entity whose provider-assigned id is the name of a member of `Object.prototype`. -/
def constructorCoin : Coin :=
  { id := "constructor", name := "Constructor", symbol := "ctor", current_price := 1,
    market_cap := 2000000, price_change_percentage_24h := none }

/-- A complete entity record of a listing (the fields of the provider's response), for
Bitcoin at the given price and market cap. -/
def bitcoinRecord (price marketCap : ℚ) : Json :=
  .obj [("id", .str "bitcoin"), ("symbol", .str "btc"), ("name", .str "Bitcoin"),
    ("image", .str "bitcoin.png"), ("current_price", .num price),
    ("market_cap", .num marketCap), ("market_cap_rank", .num 1),
    ("high_24h", .num 51000), ("low_24h", .num 49000),
    ("price_change_percentage_24h", .num (5 / 2)),
    ("price_change_percentage_7d_in_currency", .num 4),
    ("sparkline_in_7d", .obj [("price", .arr [.num 49500, .num 50000])])]

/-- The listing loaded before the criteria change. -/
def loadedListing : Json :=
  .arr [bitcoinRecord 50000 900000000000]

/-- A later listing of the provider, with a moved price and market cap. -/
def refreshedListing : Json :=
  .arr [bitcoinRecord 50500 909000000000]

/-- The view state once `loadedListing` has been loaded in `usd`, criteria untouched. -/
def loadedViewState : ViewState :=
  { initialViewState with
    app := { initialState with coins := loadedListing, loading := false } }

/-! ## Helper lemmas for the view derivation -/

theorem includes_empty (s : String) : includes s "" = true := by
  simp [includes]

theorem includes_iff (s t : String) : includes s t = true ↔ List.IsInfix t.data s.data := by
  simp [includes]

theorem matchesFilter_iff (toLowerCase : String → String) (searchTerm marketCapFilter : String)
    (c : Coin) :
    matchesFilter toLowerCase searchTerm marketCapFilter c = true ↔
      (List.IsInfix (toLowerCase searchTerm).data (toLowerCase c.name).data ∨
        List.IsInfix (toLowerCase searchTerm).data (toLowerCase c.symbol).data) ∧
      (marketCapFilter = "all" ∨ getMarketCapCategory c.market_cap = marketCapFilter) := by
  simp [matchesFilter, includes]

theorem matchesFilter_empty (toLowerCase : String → String) (hempty : toLowerCase "" = "")
    (marketCapFilter : String) (c : Coin) :
    matchesFilter toLowerCase "" marketCapFilter c = true ↔
      (marketCapFilter = "all" ∨ getMarketCapCategory c.market_cap = marketCapFilter) := by
  simp [matchesFilter, hempty, includes_empty]

theorem mem_filteredCoins (toLowerCase : String → String) (coins : List Coin)
    (searchTerm marketCapFilter : String) (sortBy : SortField) (sortOrder : String)
    (c : Coin) :
    c ∈ filteredCoins toLowerCase coins searchTerm marketCapFilter sortBy sortOrder ↔
      c ∈ coins ∧ matchesFilter toLowerCase searchTerm marketCapFilter c = true := by
  show c ∈ List.insertionSort _ (coins.filter _) ↔ _
  rw [(List.perm_insertionSort _ _).mem_iff, List.mem_filter]

theorem desc_ne_asc : ¬ ("desc" = "asc") := by decide

theorem arraySort_perm {α : Type} (compareFn : α → α → ℚ) (l : List α) :
    (arraySort compareFn l).Perm l :=
  List.perm_insertionSort _ l

theorem compareCoins_asc (sortBy : SortField) (a b : Coin) :
    compareCoins sortBy "asc" a b ≤ 0 ↔ sortValue sortBy a ≤ sortValue sortBy b := by
  simp [compareCoins]

theorem compareCoins_desc (sortBy : SortField) (a b : Coin) :
    compareCoins sortBy "desc" a b ≤ 0 ↔ sortValue sortBy b ≤ sortValue sortBy a := by
  simp [compareCoins, desc_ne_asc]

theorem compareCoins_of_eq (sortBy : SortField) (sortOrder : String) (a b : Coin)
    (h : sortValue sortBy a = sortValue sortBy b) : compareCoins sortBy sortOrder a b ≤ 0 := by
  unfold compareCoins
  split <;> simp [h]

theorem arraySort_sorted_asc (sortBy : SortField) (l : List Coin) :
    (arraySort (compareCoins sortBy "asc") l).Pairwise
      (fun a b => sortValue sortBy a ≤ sortValue sortBy b) := by
  haveI : IsTotal Coin (fun a b => compareCoins sortBy "asc" a b ≤ 0) :=
    ⟨fun a b => by simp only [compareCoins_asc]; exact le_total _ _⟩
  haveI : IsTrans Coin (fun a b => compareCoins sortBy "asc" a b ≤ 0) :=
    ⟨fun a b c => by simp only [compareCoins_asc]; exact le_trans⟩
  have h := List.sorted_insertionSort (fun a b => compareCoins sortBy "asc" a b ≤ 0) l
  exact List.Pairwise.imp (fun {a b} hab => (compareCoins_asc sortBy a b).1 hab) h

theorem arraySort_sorted_desc (sortBy : SortField) (l : List Coin) :
    (arraySort (compareCoins sortBy "desc") l).Pairwise
      (fun a b => sortValue sortBy b ≤ sortValue sortBy a) := by
  haveI : IsTotal Coin (fun a b => compareCoins sortBy "desc" a b ≤ 0) :=
    ⟨fun a b => by simp only [compareCoins_desc]; exact le_total _ _⟩
  haveI : IsTrans Coin (fun a b => compareCoins sortBy "desc" a b ≤ 0) :=
    ⟨fun a b c => by simp only [compareCoins_desc]; exact fun h₁ h₂ => le_trans h₂ h₁⟩
  have h := List.sorted_insertionSort (fun a b => compareCoins sortBy "desc" a b ≤ 0) l
  exact List.Pairwise.imp (fun {a b} hab => (compareCoins_desc sortBy a b).1 hab) h

/-- Stability of `arraySort`, in the form "the entries of one key keep their sequence". -/
theorem arraySort_filter_key (sortBy : SortField) (sortOrder : String) (l : List Coin) (k : ℚ) :
    (arraySort (compareCoins sortBy sortOrder) l).filter
        (fun c => decide (sortValue sortBy c = k)) =
      l.filter (fun c => decide (sortValue sortBy c = k)) := by
  set p : Coin → Bool := fun c => decide (sortValue sortBy c = k) with hp
  have hsub : List.Sublist (l.filter p) (arraySort (compareCoins sortBy sortOrder) l) := by
    refine List.sublist_insertionSort ?_ (List.filter_sublist l)
    have hall : ∀ a ∈ l.filter p, ∀ b ∈ l.filter p,
        compareCoins sortBy sortOrder a b ≤ 0 := by
      intro a ha b hb
      apply compareCoins_of_eq
      have ha2 := (List.mem_filter.1 ha).2
      have hb2 := (List.mem_filter.1 hb).2
      simp only [hp, decide_eq_true_eq] at ha2 hb2
      rw [ha2, hb2]
    exact List.Pairwise.imp_of_mem (fun {a b} ha hb _ => hall a ha b hb)
      (List.pairwise_of_forall (fun _ _ => trivial) : (l.filter p).Pairwise (fun _ _ => True))
  have hsub2 : List.Sublist (l.filter p)
      ((arraySort (compareCoins sortBy sortOrder) l).filter p) := by
    have := hsub.filter p
    simpa using this
  have hlen : ((arraySort (compareCoins sortBy sortOrder) l).filter p).length =
      (l.filter p).length :=
    ((arraySort_perm _ l).filter p).length_eq
  exact (hsub2.eq_of_length hlen.symm).symm

/-! ## The projected view -/

/-- C1. For every lower-casing function of the platform, the projected view holds exactly the
snapshot entities that pass the filter: an entity is in `filteredCoins` iff it is in the
snapshot, the lower-cased search text is a contiguous part of its lower-cased name or of its
lower-cased symbol, and the bucket is `all` or equals its market-cap category; the view is a
permutation of the filtered sub-sequence. When the lower-casing maps the empty text to itself,
an empty search text passes every entity, and on `[btc, xmr]` bucket `mid` gives `[xmr]` and
bucket `large` gives `[btc]`. When it lower-cases the scenario's texts as expected, the search
`BIT` keeps `btc` only (by name) and the search `XM` keeps `xmr` only (by symbol). -/
theorem filteredCoins_exactly_filtered (toLowerCase : String → String) :
    (∀ (coins : List Coin) (searchTerm marketCapFilter : String) (sortBy : SortField)
        (sortOrder : String),
      (∀ c : Coin,
        c ∈ filteredCoins toLowerCase coins searchTerm marketCapFilter sortBy sortOrder ↔
          c ∈ coins ∧
          (List.IsInfix (toLowerCase searchTerm).data (toLowerCase c.name).data ∨
            List.IsInfix (toLowerCase searchTerm).data (toLowerCase c.symbol).data) ∧
          (marketCapFilter = "all" ∨ getMarketCapCategory c.market_cap = marketCapFilter)) ∧
      (filteredCoins toLowerCase coins searchTerm marketCapFilter sortBy sortOrder).Perm
        (coins.filter (fun c =>
          decide (List.IsInfix (toLowerCase searchTerm).data (toLowerCase c.name).data ∨
            List.IsInfix (toLowerCase searchTerm).data (toLowerCase c.symbol).data) &&
          decide (marketCapFilter = "all" ∨
            getMarketCapCategory c.market_cap = marketCapFilter)))) ∧
    (toLowerCase "" = "" →
      (∀ (coins : List Coin) (marketCapFilter : String) (sortBy : SortField)
          (sortOrder : String) (c : Coin),
        c ∈ filteredCoins toLowerCase coins "" marketCapFilter sortBy sortOrder ↔
          c ∈ coins ∧
          (marketCapFilter = "all" ∨
            getMarketCapCategory c.market_cap = marketCapFilter)) ∧
      filteredCoins toLowerCase [btc, xmr] "" "mid" SortField.market_cap "desc" = [xmr] ∧
      filteredCoins toLowerCase [btc, xmr] "" "large" SortField.market_cap "desc" = [btc]) ∧
    (toLowerCase "Bitcoin" = "bitcoin" ∧ toLowerCase "btc" = "btc" ∧
        toLowerCase "Monero" = "monero" ∧ toLowerCase "xmr" = "xmr" ∧
        toLowerCase "BIT" = "bit" ∧ toLowerCase "XM" = "xm" →
      filteredCoins toLowerCase [btc, xmr] "BIT" "all" SortField.market_cap "desc" = [btc] ∧
      filteredCoins toLowerCase [btc, xmr] "XM" "all" SortField.market_cap "desc" = [xmr]) := by
  refine ⟨?_, ?_, ?_⟩
  · intro coins searchTerm marketCapFilter sortBy sortOrder
    refine ⟨?_, ?_⟩
    · intro c
      rw [mem_filteredCoins, matchesFilter_iff]
    · have hfun : (fun c : Coin =>
          decide (List.IsInfix (toLowerCase searchTerm).data (toLowerCase c.name).data ∨
            List.IsInfix (toLowerCase searchTerm).data (toLowerCase c.symbol).data) &&
          decide (marketCapFilter = "all" ∨
            getMarketCapCategory c.market_cap = marketCapFilter)) =
          matchesFilter toLowerCase searchTerm marketCapFilter := by
        funext c
        simp [matchesFilter, includes]
      rw [hfun]
      exact arraySort_perm _ _
  · intro hempty
    have hbtc : ∀ f : String, matchesFilter toLowerCase "" f btc = true ↔
        (f = "all" ∨ getMarketCapCategory btc.market_cap = f) :=
      fun f => matchesFilter_empty toLowerCase hempty f btc
    have hxmr : ∀ f : String, matchesFilter toLowerCase "" f xmr = true ↔
        (f = "all" ∨ getMarketCapCategory xmr.market_cap = f) :=
      fun f => matchesFilter_empty toLowerCase hempty f xmr
    have hcb : getMarketCapCategory btc.market_cap = "large" := by
      norm_num [getMarketCapCategory, btc]
    have hcx : getMarketCapCategory xmr.market_cap = "mid" := by
      norm_num [getMarketCapCategory, xmr]
    refine ⟨?_, ?_, ?_⟩
    · intro coins marketCapFilter sortBy sortOrder c
      rw [mem_filteredCoins, matchesFilter_empty toLowerCase hempty]
    · have h1 : matchesFilter toLowerCase "" "mid" btc = false := by
        rw [Bool.eq_false_iff, Ne, hbtc, hcb]
        decide
      have h2 : matchesFilter toLowerCase "" "mid" xmr = true := by
        rw [hxmr, hcx]
        decide
      simp [filteredCoins, arraySort, List.filter, h1, h2]
    · have h1 : matchesFilter toLowerCase "" "large" btc = true := by
        rw [hbtc, hcb]
        decide
      have h2 : matchesFilter toLowerCase "" "large" xmr = false := by
        rw [Bool.eq_false_iff, Ne, hxmr, hcx]
        decide
      simp [filteredCoins, arraySort, List.filter, h1, h2]
  · rintro ⟨hB, hb, hM, hx, hBIT, hXM⟩
    have i1 : List.IsInfix "bit".data "bitcoin".data := by decide
    have i2 : ¬ List.IsInfix "bit".data "monero".data := by decide
    have i3 : ¬ List.IsInfix "bit".data "xmr".data := by decide
    have i4 : ¬ List.IsInfix "xm".data "bitcoin".data := by decide
    have i5 : ¬ List.IsInfix "xm".data "btc".data := by decide
    have i6 : List.IsInfix "xm".data "xmr".data := by decide
    have n1 : btc.name = "Bitcoin" := rfl
    have n2 : btc.symbol = "btc" := rfl
    have n3 : xmr.name = "Monero" := rfl
    have n4 : xmr.symbol = "xmr" := rfl
    have h1 : matchesFilter toLowerCase "BIT" "all" btc = true := by
      rw [matchesFilter_iff, n1, n2, hB, hb, hBIT]
      exact ⟨Or.inl i1, Or.inl rfl⟩
    have h2 : matchesFilter toLowerCase "BIT" "all" xmr = false := by
      rw [Bool.eq_false_iff, Ne, matchesFilter_iff, n3, n4, hM, hx, hBIT]
      rintro ⟨h | h, _⟩
      · exact i2 h
      · exact i3 h
    have h3 : matchesFilter toLowerCase "XM" "all" btc = false := by
      rw [Bool.eq_false_iff, Ne, matchesFilter_iff, n1, n2, hB, hb, hXM]
      rintro ⟨h | h, _⟩
      · exact i4 h
      · exact i5 h
    have h4 : matchesFilter toLowerCase "XM" "all" xmr = true := by
      rw [matchesFilter_iff, n3, n4, hM, hx, hXM]
      exact ⟨Or.inr i6, Or.inl rfl⟩
    constructor
    · simp [filteredCoins, arraySort, List.filter, h1, h2]
    · simp [filteredCoins, arraySort, List.filter, h3, h4]

/-- Witness for C1: the ASCII folding maps the empty text to itself and lower-cases the
scenario's texts, so the empty search with bucket `mid` gives `[xmr]` and the search `BIT`
gives `[btc]`. -/
theorem filteredCoins_exactly_filtered_witness :
    asciiToLowerCase "" = "" ∧
    filteredCoins asciiToLowerCase [btc, xmr] "" "mid" SortField.market_cap "desc" = [xmr] ∧
    filteredCoins asciiToLowerCase [btc, xmr] "BIT" "all" SortField.market_cap "desc" =
      [btc] :=
  ⟨rfl, ((filteredCoins_exactly_filtered asciiToLowerCase).2.1 rfl).2.1,
    ((filteredCoins_exactly_filtered asciiToLowerCase).2.2
      ⟨by decide, by decide, by decide, by decide, by decide, by decide⟩).1⟩

/-- C2. `getMarketCapCategory` gives `large` exactly above 10,000,000,000, `mid` exactly in
`(1,000,000,000, 10,000,000,000]`, `small` exactly up to 1,000,000,000; the two boundary values
are `mid` and `small`; every number falls in exactly one of the three buckets. -/
theorem getMarketCapCategory_buckets (m : ℚ) :
    (getMarketCapCategory m = "large" ↔ m > 10000000000) ∧
    (getMarketCapCategory m = "mid" ↔ 1000000000 < m ∧ m ≤ 10000000000) ∧
    (getMarketCapCategory m = "small" ↔ m ≤ 1000000000) ∧
    getMarketCapCategory 10000000000 = "mid" ∧
    getMarketCapCategory 1000000000 = "small" ∧
    (∃! b : String, b ∈ ["large", "mid", "small"] ∧ getMarketCapCategory m = b) := by
  have hlm : ¬ ("large" = "mid") := by decide
  have hls : ¬ ("large" = "small") := by decide
  have hml : ¬ ("mid" = "large") := by decide
  have hms : ¬ ("mid" = "small") := by decide
  have hsl : ¬ ("small" = "large") := by decide
  have hsm : ¬ ("small" = "mid") := by decide
  refine ⟨?_, ?_, ?_, ?_, ?_, ?_⟩
  · unfold getMarketCapCategory
    split_ifs with h1 h2 <;> simp [h1, hml, hsl]
  · unfold getMarketCapCategory
    split_ifs with h1 h2
    · simp only [hlm, false_iff, not_and, not_le]
      exact fun _ => h1
    · simp only [true_iff]
      exact ⟨h2, not_lt.1 h1⟩
    · simp only [hsm, false_iff, not_and, not_le]
      exact fun h => absurd h h2
  · unfold getMarketCapCategory
    split_ifs with h1 h2
    · simp only [hls, false_iff, not_le]
      linarith
    · simp only [hms, false_iff, not_le]
      exact h2
    · simp only [true_iff]
      exact not_lt.1 h2
  · norm_num [getMarketCapCategory]
  · norm_num [getMarketCapCategory]
  · refine ⟨getMarketCapCategory m, ⟨?_, rfl⟩, fun b hb => hb.2.symm⟩
    unfold getMarketCapCategory
    split_ifs <;> simp

/-- C3. For every lower-casing function of the platform, the projected view is ordered by
the sort key: non-decreasing for `asc`, non-increasing for `desc`, both between neighbours and
between any earlier and later entity. The key is the market cap, the current price or the 24h
change according to `sortBy`, a missing 24h change counting as 0. On `[xmr, btc]` with an empty
search, market cap `desc` gives `[btc, xmr]`. -/
theorem filteredCoins_ordered_by_key :
    (∀ (toLowerCase : String → String) (coins : List Coin)
        (searchTerm marketCapFilter : String) (sortBy : SortField),
      (filteredCoins toLowerCase coins searchTerm marketCapFilter sortBy "asc").Pairwise
        (fun a b => sortValue sortBy a ≤ sortValue sortBy b) ∧
      (filteredCoins toLowerCase coins searchTerm marketCapFilter sortBy "asc").Chain'
        (fun a b => sortValue sortBy a ≤ sortValue sortBy b) ∧
      (filteredCoins toLowerCase coins searchTerm marketCapFilter sortBy "desc").Pairwise
        (fun a b => sortValue sortBy a ≥ sortValue sortBy b) ∧
      (filteredCoins toLowerCase coins searchTerm marketCapFilter sortBy "desc").Chain'
        (fun a b => sortValue sortBy a ≥ sortValue sortBy b)) ∧
    (∀ (c : Coin) (v : ℚ), sortValue SortField.market_cap c = c.market_cap ∧
      sortValue SortField.current_price c = c.current_price ∧
      sortValue SortField.price_change_percentage_24h
        { c with price_change_percentage_24h := some v } = v ∧
      sortValue SortField.price_change_percentage_24h
        { c with price_change_percentage_24h := none } = 0) ∧
    (∀ toLowerCase : String → String, toLowerCase "" = "" →
      filteredCoins toLowerCase [xmr, btc] "" "all" SortField.market_cap "desc" =
        [btc, xmr]) := by
  refine ⟨?_, ?_, ?_⟩
  · intro toLowerCase coins searchTerm marketCapFilter sortBy
    have ha := arraySort_sorted_asc sortBy
      (coins.filter (matchesFilter toLowerCase searchTerm marketCapFilter))
    have hd := arraySort_sorted_desc sortBy
      (coins.filter (matchesFilter toLowerCase searchTerm marketCapFilter))
    exact ⟨ha, List.Pairwise.chain' ha, hd, List.Pairwise.chain' hd⟩
  · intro c v
    exact ⟨rfl, rfl, rfl, rfl⟩
  · intro toLowerCase hempty
    have h1 : matchesFilter toLowerCase "" "all" xmr = true :=
      (matchesFilter_empty toLowerCase hempty "all" xmr).2 (Or.inl rfl)
    have h2 : matchesFilter toLowerCase "" "all" btc = true :=
      (matchesFilter_empty toLowerCase hempty "all" btc).2 (Or.inl rfl)
    have hf : [xmr, btc].filter (matchesFilter toLowerCase "" "all") = [xmr, btc] := by
      simp [List.filter, h1, h2]
    show arraySort _ ([xmr, btc].filter (matchesFilter toLowerCase "" "all")) = _
    rw [hf]
    norm_num [arraySort, btc, xmr, compareCoins, sortValue, List.orderedInsert, desc_ne_asc]

/-- Witness for C3: with the ASCII folding, `[xmr, btc]` sorted by market cap descending is
`[btc, xmr]`. -/
theorem filteredCoins_ordered_by_key_witness :
    asciiToLowerCase "" = "" ∧
    filteredCoins asciiToLowerCase [xmr, btc] "" "all" SortField.market_cap "desc" =
      [btc, xmr] :=
  ⟨rfl, filteredCoins_ordered_by_key.2.2 asciiToLowerCase rfl⟩

/-- C4. The sort of the projected view is stable for every sort direction and every
lower-casing function of the platform: for each key value the entities of that key appear in
the view in exactly the sequence they have in the snapshot (restricted to the entities that
pass the filter), and a pair of filter-passing entities with equal keys is in snapshot order
in the view iff it is so in the snapshot. A missing 24h change counts as key 0. -/
theorem filteredCoins_stable (toLowerCase : String → String) (coins : List Coin)
    (searchTerm marketCapFilter : String) (sortBy : SortField) (sortOrder : String) :
    (∀ k : ℚ,
      (filteredCoins toLowerCase coins searchTerm marketCapFilter sortBy sortOrder).filter
          (fun c => decide (sortValue sortBy c = k)) =
        coins.filter (fun c => matchesFilter toLowerCase searchTerm marketCapFilter c &&
          decide (sortValue sortBy c = k))) ∧
    (∀ a b : Coin, matchesFilter toLowerCase searchTerm marketCapFilter a = true →
      matchesFilter toLowerCase searchTerm marketCapFilter b = true →
      sortValue sortBy a = sortValue sortBy b →
      (List.Sublist [a, b] coins ↔
        List.Sublist [a, b]
          (filteredCoins toLowerCase coins searchTerm marketCapFilter sortBy sortOrder))) := by
  have hk : ∀ k : ℚ,
      (filteredCoins toLowerCase coins searchTerm marketCapFilter sortBy sortOrder).filter
          (fun c => decide (sortValue sortBy c = k)) =
        coins.filter (fun c => matchesFilter toLowerCase searchTerm marketCapFilter c &&
          decide (sortValue sortBy c = k)) := by
    intro k
    unfold filteredCoins
    rw [arraySort_filter_key, List.filter_filter]
    congr 1
    funext c
    exact Bool.and_comm _ _
  refine ⟨hk, ?_⟩
  intro a b ha hb hab
  have hfa : [a, b].filter (fun c => decide (sortValue sortBy c = sortValue sortBy a)) =
      [a, b] := by
    simp [hab]
  have hfb : [a, b].filter (fun c => matchesFilter toLowerCase searchTerm marketCapFilter c &&
      decide (sortValue sortBy c = sortValue sortBy a)) = [a, b] := by
    simp [hab, ha, hb]
  constructor
  · intro h
    have h1 := h.filter (fun c => matchesFilter toLowerCase searchTerm marketCapFilter c &&
      decide (sortValue sortBy c = sortValue sortBy a))
    rw [hfb, ← hk] at h1
    exact h1.trans (List.filter_sublist _)
  · intro h
    have h1 := h.filter (fun c => decide (sortValue sortBy c = sortValue sortBy a))
    rw [hfa, hk] at h1
    exact h1.trans (List.filter_sublist _)

/-- Witness for C4: `xmr` and `zec` have the same market cap; with `btc` between them in the
snapshot they keep their snapshot order in the view sorted by market cap, descending. -/
theorem filteredCoins_stable_witness :
    List.Sublist [xmr, zec]
      (filteredCoins asciiToLowerCase [xmr, btc, zec] "" "all" SortField.market_cap
        "desc") :=
  ((filteredCoins_stable asciiToLowerCase [xmr, btc, zec] "" "all" SortField.market_cap
      "desc").2 xmr zec
    ((matchesFilter_empty asciiToLowerCase rfl "all" xmr).2 (Or.inl rfl))
    ((matchesFilter_empty asciiToLowerCase rfl "all" zec).2 (Or.inl rfl))
    rfl).1
    (List.Sublist.cons₂ xmr (List.Sublist.cons btc (List.Sublist.refl [zec])))

/-! ## Favourites -/

/-- C5. Toggling an absent id `x` writes a record that the startup load reads back as exactly
the favourites in memory, with `x` among them; toggling `x` again restores the original
favourites in memory and in the reloaded record, without `x`; the membership of every other id
is untouched by both toggles. -/
theorem togglefavourite_round_trip (s : FavouritesState) (x : String)
    (hx : x ∉ s.favourites) :
    x ∈ (togglefavourite x s).favourites ∧
    loadFavourites (togglefavourite x s).record =
      Outcome.value (Json.arr ((togglefavourite x s).favourites.map Json.str)) ∧
    Json.str x ∈ (togglefavourite x s).favourites.map Json.str ∧
    (togglefavourite x (togglefavourite x s)).favourites = s.favourites ∧
    x ∉ (togglefavourite x (togglefavourite x s)).favourites ∧
    loadFavourites (togglefavourite x (togglefavourite x s)).record =
      Outcome.value (Json.arr (s.favourites.map Json.str)) ∧
    (∀ y : String, y ≠ x →
      ((y ∈ (togglefavourite x s).favourites ↔ y ∈ s.favourites) ∧
        (y ∈ (togglefavourite x (togglefavourite x s)).favourites ↔ y ∈ s.favourites))) := by
  have h1 : (togglefavourite x s).favourites = s.favourites ++ [x] := by
    simp [togglefavourite, hx]
  have hr : ∀ t : FavouritesState, loadFavourites (togglefavourite x t).record =
      Outcome.value (Json.arr ((togglefavourite x t).favourites.map Json.str)) := by
    intro t
    simp [togglefavourite, saveFavouritesToLocalStorage, loadFavourites, jsonParseItem,
      jsonStringify, Json.truthy]
  have h2 : (togglefavourite x (togglefavourite x s)).favourites = s.favourites := by
    have hmem : x ∈ (togglefavourite x s).favourites := by simp [h1]
    have hdef : ∀ t : FavouritesState, x ∈ t.favourites →
        (togglefavourite x t).favourites = t.favourites.filter (fun id => id != x) := by
      intro t ht
      simp [togglefavourite, ht]
    have := hdef (togglefavourite x s) hmem
    rw [this, h1, List.filter_append]
    have hf : s.favourites.filter (fun id => id != x) = s.favourites := by
      rw [List.filter_eq_self]
      intro a ha
      have : a ≠ x := fun h => hx (h ▸ ha)
      simpa using this
    simp [hf]
  refine ⟨by simp [h1], hr s, ?_, h2, by rw [h2]; exact hx, ?_, ?_⟩
  · simp [h1]
  · rw [hr, h2]
  · intro y hy
    rw [h2, h1]
    simp [hy]

/-- Witness for C5: favourites `["bitcoin"]`, no record yet, toggled id `"monero"`. -/
theorem togglefavourite_round_trip_witness :
    "monero" ∉ ["bitcoin"] ∧
    loadFavourites (togglefavourite "monero" ⟨["bitcoin"], none⟩).record =
      Outcome.value (Json.arr
        ((togglefavourite "monero" ⟨["bitcoin"], none⟩).favourites.map Json.str)) :=
  ⟨by decide, (togglefavourite_round_trip ⟨["bitcoin"], none⟩ "monero" (by decide)).2.1⟩

/-- C6, as stated, fails: a record that is not JSON text makes the startup load throw a
`SyntaxError`; it does not yield the empty favourites. -/
theorem loadFavourites_malformed_throws :
    loadFavourites (some (RecordText.malformed "not json")) = Outcome.throws "SyntaxError" ∧
    loadFavourites (some (RecordText.malformed "not json")) ≠ Outcome.value (Json.arr []) := by
  constructor
  · rfl
  · intro h
    cases h

/-- C6, amended. The startup load yields the empty array when there is no record, and when
the record parses to a falsy value; it yields the parsed value itself when that is truthy, in
particular the id array written by `togglefavourite`; it throws when the record is not JSON
text. -/
theorem loadFavourites_cases :
    loadFavourites none = Outcome.value (Json.arr []) ∧
    (∀ favs : List String,
      loadFavourites (some (jsonStringify favs)) =
        Outcome.value (Json.arr (favs.map Json.str))) ∧
    (∀ v : Json,
      loadFavourites (some (RecordText.json v)) =
        Outcome.value (if v.truthy then v else Json.arr [])) ∧
    (∀ raw : String,
      loadFavourites (some (RecordText.malformed raw)) = Outcome.throws "SyntaxError") := by
  refine ⟨rfl, ?_, ?_, ?_⟩
  · intro favs
    simp [loadFavourites, jsonParseItem, jsonStringify, Json.truthy]
  · intro v
    rfl
  · intro raw
    rfl

/-! ## Snapshot fetch -/

/-- C7, as stated, fails: an error body that is JSON text but not an array of entity records
is installed as the snapshot; the previous snapshot is lost. -/
theorem fetchCoins_installs_error_body :
    errorBody.isArray = false ∧
    (fetchCoins (FetchResult.body errorBody)
      { initialState with coins := sampleSnapshot }).coins = errorBody ∧
    (fetchCoins (FetchResult.body errorBody)
      { initialState with coins := sampleSnapshot }).coins ≠ sampleSnapshot := by
  refine ⟨rfl, rfl, ?_⟩
  intro h
  cases h

/-- C7, amended. A `fetchCoins` run that ends in a transport failure or in a body that is not
JSON text leaves `coins` as it was; a run whose body parses as JSON replaces `coins` by the
parsed value wholesale, which is what happens for every well-formed listing. -/
theorem fetchCoins_snapshot (s : State) :
    (fetchCoins FetchResult.transportFailure s).coins = s.coins ∧
    (fetchCoins FetchResult.bodyNotJson s).coins = s.coins ∧
    (∀ data : Json, (fetchCoins (FetchResult.body data) s).coins = data) :=
  ⟨rfl, rfl, fun _ => rfl⟩

/-! ## History cache -/

theorem ownProperty_objSet_self {β : Type} (o : List (String × β)) (key : String)
    (value : β) : ownProperty (objSet o key value) key = some value := by
  induction o with
  | nil => simp [objSet, ownProperty]
  | cons e rest ih =>
    obtain ⟨k, v⟩ := e
    by_cases hk : k = key
    · simp [objSet, ownProperty, hk]
    · simp [objSet, ownProperty, hk, ih]

theorem objGet_objSet_self {β : Type} (o : List (String × β)) (key : String) (value : β) :
    objGet (objSet o key value) key = PropertyValue.own value := by
  simp [objGet, ownProperty_objSet_self]

/-- A read is `undefined` exactly when the key is neither an own property nor the name of a
member of `Object.prototype`. -/
theorem objGet_eq_undefined_iff {β : Type} (o : List (String × β)) (key : String) :
    objGet o key = PropertyValue.undefined ↔
      ownProperty o key = none ∧ key ∉ objectPrototypeKeys := by
  unfold objGet
  cases h : ownProperty o key with
  | none =>
    by_cases hk : key ∈ objectPrototypeKeys
    · simp [hk]
    · simp [hk]
  | some v => simp

theorem handleCoinClick_hit (coin : Coin) (s : State) (series : List PricePoint)
    (h : objGet s.priceHistory coin.id = PropertyValue.own series) :
    handleCoinClick coin s = { s with selectedCoin := some coin } := by
  simp [handleCoinClick, h, PropertyValue.truthy]

/-- C8, as stated, fails for an entity id that names a member of `Object.prototype`: on the
empty cache of the first render the read `priceHistory["constructor"]` is the inherited
constructor, which is truthy, so neither the first nor the second selection of that entity
sends a history request: two selections issue no request, not exactly one. -/
theorem handleCoinClick_inherited_key_no_fetch :
    objGet initialState.priceHistory constructorCoin.id =
      PropertyValue.inherited "constructor" ∧
    (handleCoinClick constructorCoin initialState).requests = [] ∧
    (handleCoinClick constructorCoin
      (handleCoinClick constructorCoin initialState)).requests = [] ∧
    (handleCoinClick constructorCoin
      (handleCoinClick constructorCoin initialState)).requests.length ≠ 1 := by
  refine ⟨by decide, by decide, by decide, by decide⟩

/-- C8, amended. When an entity is selected whose cache read `priceHistory[id]` is
`undefined` (no entry yet, and the id is not the name of a member of `Object.prototype`), its
series arrives, and the entity is selected again, exactly one history request has been issued:
the first selection sends the request for (id, current currency), the second selection sends
none, and the cache after it is the cache as the first fetch left it, reading the fetched
series under the id. This holds for every series, the empty one included. -/
theorem handleCoinClick_fetch_once (toLocaleDateString : Int → String) (s : State)
    (coin : Coin) (samples : List (Int × ℚ))
    (hmiss : objGet s.priceHistory coin.id = PropertyValue.undefined) :
    (handleCoinClick coin s).requests =
      s.requests ++ [Request.marketChart coin.id s.selectedCurrency] ∧
    (handleCoinClick coin
      (fetchPriceHistoryFinish toLocaleDateString coin.id (HistoryResult.prices samples)
        (handleCoinClick coin s))).requests =
      s.requests ++ [Request.marketChart coin.id s.selectedCurrency] ∧
    (handleCoinClick coin
      (fetchPriceHistoryFinish toLocaleDateString coin.id (HistoryResult.prices samples)
        (handleCoinClick coin s))).priceHistory =
      (fetchPriceHistoryFinish toLocaleDateString coin.id (HistoryResult.prices samples)
        (handleCoinClick coin s)).priceHistory ∧
    objGet (handleCoinClick coin
      (fetchPriceHistoryFinish toLocaleDateString coin.id (HistoryResult.prices samples)
        (handleCoinClick coin s))).priceHistory coin.id =
      PropertyValue.own (samples.map (fun sample =>
        ({ time := toLocaleDateString sample.1, price := sample.2 } : PricePoint))) := by
  have h1 : handleCoinClick coin s =
      fetchPriceHistoryStart coin.id { s with selectedCoin := some coin } := by
    simp [handleCoinClick, hmiss, PropertyValue.truthy]
  have hget : objGet (fetchPriceHistoryFinish toLocaleDateString coin.id
      (HistoryResult.prices samples) (handleCoinClick coin s)).priceHistory coin.id =
      PropertyValue.own (samples.map (fun sample =>
        ({ time := toLocaleDateString sample.1, price := sample.2 } : PricePoint))) := by
    simp [fetchPriceHistoryFinish, objGet_objSet_self]
  rw [handleCoinClick_hit coin _ _ hget]
  refine ⟨?_, ?_, rfl, hget⟩
  · rw [h1]; rfl
  · rw [h1]; rfl

/-- Witness for C8 (amended): the first render, entity `btc`, and an empty series. -/
theorem handleCoinClick_fetch_once_witness :
    objGet initialState.priceHistory btc.id = PropertyValue.undefined ∧
    (handleCoinClick btc
      (fetchPriceHistoryFinish epochDate btc.id (HistoryResult.prices [])
        (handleCoinClick btc initialState))).requests =
      initialState.requests ++ [Request.marketChart btc.id initialState.selectedCurrency] :=
  ⟨by decide, (handleCoinClick_fetch_once epochDate initialState btc [] (by decide)).2.1⟩

/-- C9, as stated, fails: after the `usd` series of `btc` is cached and the currency is
switched to `eur`, selecting `btc` sends no history request for `eur` (the only requests are
the `usd` history request and the `eur` listing request of the switch) and the cache still
answers with the `usd` series. -/
theorem handleCoinClick_hit_after_currency_switch :
    reselectAfterSwitch.selectedCurrency = "eur" ∧
    reselectAfterSwitch.requests =
      [Request.marketChart "btc" "usd", Request.markets "eur"] ∧
    Request.marketChart "btc" "eur" ∉ reselectAfterSwitch.requests ∧
    objGet reselectAfterSwitch.priceHistory "btc" =
      PropertyValue.own [{ time := "1/1/1970", price := 50000 }] := by
  have hreq : reselectAfterSwitch.requests =
      [Request.marketChart "btc" "usd", Request.markets "eur"] := by decide
  refine ⟨by decide, hreq, ?_, ?_⟩
  · rw [hreq]
    decide
  · simp [reselectAfterSwitch, handleCoinClick, setSelectedCurrency, fetchCoinsStart,
      fetchPriceHistoryFinish, fetchPriceHistoryStart, initialState, objGet, ownProperty,
      objSet, objectPrototypeKeys, PropertyValue.truthy, btc, epochDate]

/-- C9, amended. Cache entries are keyed by the entity id alone: once a series has been
fetched and cached for an id under one currency, changing the active currency to any other
and selecting the entity sends no history request, leaves the cache unchanged, and the entry
of the id is still the series fetched under the first currency. -/
theorem handleCoinClick_keyed_by_id (toLocaleDateString : Int → String) (s : State)
    (coin : Coin) (samples : List (Int × ℚ)) (currency : String) :
    (handleCoinClick coin
      (setSelectedCurrency currency
        (fetchPriceHistoryFinish toLocaleDateString coin.id (HistoryResult.prices samples)
          (handleCoinClick coin s)))).requests =
      (setSelectedCurrency currency
        (fetchPriceHistoryFinish toLocaleDateString coin.id (HistoryResult.prices samples)
          (handleCoinClick coin s))).requests ∧
    (handleCoinClick coin
      (setSelectedCurrency currency
        (fetchPriceHistoryFinish toLocaleDateString coin.id (HistoryResult.prices samples)
          (handleCoinClick coin s)))).priceHistory =
      (fetchPriceHistoryFinish toLocaleDateString coin.id (HistoryResult.prices samples)
        (handleCoinClick coin s)).priceHistory ∧
    objGet (handleCoinClick coin
      (setSelectedCurrency currency
        (fetchPriceHistoryFinish toLocaleDateString coin.id (HistoryResult.prices samples)
          (handleCoinClick coin s)))).priceHistory coin.id =
      PropertyValue.own (samples.map (fun sample =>
        ({ time := toLocaleDateString sample.1, price := sample.2 } : PricePoint))) := by
  have hph : (setSelectedCurrency currency
      (fetchPriceHistoryFinish toLocaleDateString coin.id (HistoryResult.prices samples)
        (handleCoinClick coin s))).priceHistory =
      (fetchPriceHistoryFinish toLocaleDateString coin.id (HistoryResult.prices samples)
        (handleCoinClick coin s)).priceHistory := by
    unfold setSelectedCurrency
    split <;> rfl
  have hget : objGet (setSelectedCurrency currency
      (fetchPriceHistoryFinish toLocaleDateString coin.id (HistoryResult.prices samples)
        (handleCoinClick coin s))).priceHistory coin.id =
      PropertyValue.own (samples.map (fun sample =>
        ({ time := toLocaleDateString sample.1, price := sample.2 } : PricePoint))) := by
    rw [hph]
    simp [fetchPriceHistoryFinish, objGet_objSet_self]
  rw [handleCoinClick_hit coin _ _ hget]
  exact ⟨rfl, hph, hget⟩

/-! ## Refresh scheduler -/

/-- C10, as stated, fails: without a switch the scheduler mounted at 0 ticks at 30000; after
the switch to `eur` at 10000 it has fetched at 0 (`usd`) and at 10000 (`eur`), the next tick is
armed for 40000, nothing is fetched at 30000, and the tick at 40000 fetches in `eur`. -/
theorem switchCurrency_rearms_timer :
    (advanceTo 30000 (mount 0 "usd")).fetches = [(0, "usd"), (30000, "usd")] ∧
    switchedAt10000.fetches = [(0, "usd"), (10000, "eur")] ∧
    nextTick switchedAt10000 = some 40000 ∧
    nextTick switchedAt10000 ≠ some 30000 ∧
    (advanceTo 30000 switchedAt10000).fetches = [(0, "usd"), (10000, "eur")] ∧
    (advanceTo 40000 switchedAt10000).fetches =
      [(0, "usd"), (10000, "eur"), (40000, "eur")] := by
  refine ⟨by decide, by decide, by decide, by decide, by decide, by decide⟩

/-- C10, amended. Changing the active currency cancels the pending tick and arms a new timer:
for a scheduler mounted at 0 in `usd` and switched to another currency at a time `t` with
`0 < t < 30000`, the fetches so far are the one at 0 in `usd` and the immediate one at `t` in
the new currency, the next tick is at `t + 30000`, nothing is fetched at 30000, and the tick
at `t + 30000` fetches in the new currency. -/
theorem switchCurrency_next_tick (t : Nat) (currency : String) (h0 : 0 < t)
    (h1 : t < 30000) (hc : currency ≠ "usd") :
    (switchCurrency currency (advanceTo t (mount 0 "usd"))).fetches =
      [(0, "usd"), (t, currency)] ∧
    nextTick (switchCurrency currency (advanceTo t (mount 0 "usd"))) = some (t + 30000) ∧
    (advanceTo 30000 (switchCurrency currency (advanceTo t (mount 0 "usd")))).fetches =
      [(0, "usd"), (t, currency)] ∧
    (advanceTo (t + 30000) (switchCurrency currency (advanceTo t (mount 0 "usd")))).fetches =
      [(0, "usd"), (t, currency), (t + 30000, currency)] := by
  have hadv : advanceTo t (mount 0 "usd") =
      { now := t, selectedCurrency := "usd", interval := some (30000, "usd"),
        fetches := [(0, "usd")] } := by
    simp [advanceTo, mount, runEffect, h1]
  have hsw : switchCurrency currency (advanceTo t (mount 0 "usd")) =
      { now := t, selectedCurrency := currency, interval := some (t + 30000, currency),
        fetches := [(0, "usd"), (t, currency)] } := by
    rw [hadv]
    simp [switchCurrency, hc, runEffect, cleanupEffect]
  rw [hsw]
  refine ⟨rfl, rfl, ?_, ?_⟩
  · have h2 : ¬ (30000 < t) := by omega
    have h3 : 30000 < t + 30000 := by omega
    simp only [advanceTo, h2, h3, if_true, if_false]
  · have h2 : ¬ (t + 30000 < t) := by omega
    have h3 : ¬ (t + 30000 < t + 30000) := by omega
    have h4 : (t + 30000 - (t + 30000)) / 30000 = 0 := by
      rw [Nat.sub_self, Nat.zero_div]
    simp only [advanceTo, h2, h3, if_false, h4, Nat.zero_add]
    simp [firings]

/-- Witness for C10 (amended): the switch to `eur` at `t = 10000`. -/
theorem switchCurrency_next_tick_witness :
    0 < 10000 ∧ 10000 < 30000 ∧ "eur" ≠ "usd" ∧
    nextTick (switchCurrency "eur" (advanceTo 10000 (mount 0 "usd"))) =
      some (10000 + 30000) :=
  ⟨by decide, by decide, by decide,
    (switchCurrency_next_tick 10000 "eur" (by decide) (by decide) (by decide)).2.1⟩

/-! ## View criteria handlers -/

/-- The search and sort handlers only update their criteria: no request is issued, and the
snapshot, the active currency and the remaining component state are what they were. -/
theorem searchOnChange_sortOnChange_no_fetch (v : ViewState) (value : String)
    (field : SortField) (order : String) :
    (searchOnChange value v).app = v.app ∧
    (searchOnChange value v).searchTerm = value ∧
    (searchOnChange value v).marketCapFilter = v.marketCapFilter ∧
    (searchOnChange value v).sortBy = v.sortBy ∧
    (searchOnChange value v).sortOrder = v.sortOrder ∧
    (sortOnChange field order v).app = v.app ∧
    (sortOnChange field order v).sortBy = field ∧
    (sortOnChange field order v).sortOrder = order ∧
    (sortOnChange field order v).searchTerm = v.searchTerm ∧
    (sortOnChange field order v).marketCapFilter = v.marketCapFilter :=
  ⟨rfl, rfl, rfl, rfl, rfl, rfl, rfl, rfl, rfl, rfl⟩

/-- The market-cap handler, for every state, chosen option and end of the request: it sends
one listing request in the active currency and installs a parsed body as the snapshot; the
criterion keeps the value it had, as do the other criteria and the active currency. -/
theorem marketCapOnChange_effect (v : ViewState) (value : String) :
    (∀ r : FetchResult,
      (marketCapOnChange value r v).app.requests =
        v.app.requests ++ [Request.markets v.app.selectedCurrency] ∧
      (marketCapOnChange value r v).marketCapFilter = v.marketCapFilter ∧
      (marketCapOnChange value r v).searchTerm = v.searchTerm ∧
      (marketCapOnChange value r v).sortBy = v.sortBy ∧
      (marketCapOnChange value r v).sortOrder = v.sortOrder ∧
      (marketCapOnChange value r v).app.selectedCurrency = v.app.selectedCurrency) ∧
    (∀ data : Json, (marketCapOnChange value (FetchResult.body data) v).app.coins = data) ∧
    (marketCapOnChange value FetchResult.transportFailure v).app.coins = v.app.coins ∧
    (marketCapOnChange value FetchResult.bodyNotJson v).app.coins = v.app.coins := by
  refine ⟨fun r => ?_, fun _ => rfl, rfl, rfl⟩
  cases r <;> exact ⟨rfl, rfl, rfl, rfl, rfl, rfl⟩

/-- C11 fails on the market-cap criterion: with `loadedListing` loaded in `usd` and no request
sent so far, choosing the bucket `mid` sends a listing request for `usd`; when that request
returns the newer `refreshedListing` the snapshot is replaced by it, and the criterion is
still `all`. The active currency stays `usd`; the search and sort handlers, at the same state,
send nothing. -/
theorem marketCapOnChange_issues_fetch :
    loadedViewState.app.requests = [] ∧
    loadedViewState.marketCapFilter = "all" ∧
    (marketCapOnChange "mid" (FetchResult.body refreshedListing)
      loadedViewState).app.requests = [Request.markets "usd"] ∧
    (marketCapOnChange "mid" (FetchResult.body refreshedListing)
      loadedViewState).app.coins = refreshedListing ∧
    (marketCapOnChange "mid" (FetchResult.body refreshedListing)
      loadedViewState).app.coins ≠ loadedViewState.app.coins ∧
    (marketCapOnChange "mid" (FetchResult.body refreshedListing)
      loadedViewState).marketCapFilter = "all" ∧
    (marketCapOnChange "mid" (FetchResult.body refreshedListing)
      loadedViewState).app.selectedCurrency = "usd" ∧
    (searchOnChange "bit" loadedViewState).app.requests = [] ∧
    (sortOnChange SortField.current_price "asc" loadedViewState).app.requests = [] := by
  refine ⟨rfl, rfl, rfl, rfl, ?_, rfl, rfl, rfl, rfl⟩
  intro h
  have h2 : refreshedListing = loadedListing := h
  simp [refreshedListing, loadedListing, bitcoinRecord] at h2

end CryptoDashboard
